import Mathlib

/-!
Verification development for the klippy repository: a Kindle "My Clippings"
to Markdown converter.  The source files of the repository under version
control are packaging metadata and import-forwarding shims; the parsing and emitting
core described by the specification is absent from the sources, so the core
(Clippings Parser and Markdown Emitter) is modelled here from the words of
the specification itself, while the import chain and version metadata are
embedded from the actual source files.
-/

namespace Klippy

/-- Modelled from the spec: the `kind` enumeration of a Clipping
(spec section 3); the parsing/conversion code is missing from the sources. -/
inductive Kind : Type
  | Highlight : Kind
  | Note : Kind
  | Bookmark : Kind
deriving DecidableEq, Repr

/-- Modelled from the spec: the timestamp parsed from the textual
day/month/year/time date line of the export (spec sections 3 and 4.1); the
parsing code is missing from the sources. -/
structure DateTimeT : Type where
  day : Nat
  month : Nat
  year : Nat
  hour : Nat
  minute : Nat
  second : Nat
deriving DecidableEq, Repr

/-- Modelled from the spec: one Clipping record of the data model
(spec section 3); the parsing code is missing from the sources. -/
structure Clipping : Type where
  title : String
  kind : Kind
  location : String
  added_at : Option DateTimeT
  content : String
deriving DecidableEq, Repr

/-- Modelled from the spec: a Document aggregates the Clippings sharing one
title after deduplication (spec section 3); the emitter code is missing
from the sources. -/
structure Document : Type where
  title : String
  clippings : List Clipping
deriving DecidableEq, Repr

/-- Character-list test: is the first list a prefix of the second. -/
def listPre : List Char → List Char → Bool
  | [], _ => true
  | _ :: _, [] => false
  | a :: l, b :: m => a = b && listPre l m

/-- Character-list test: is the first list a contiguous substring of the
second. -/
def listSub : List Char → List Char → Bool
  | l, [] => l.isEmpty
  | l, b :: m => listPre l (b :: m) || listSub l m

/-- Split a character list at the first occurrence of a separator pattern,
returning the parts before and after it, or none when absent. -/
def splitFirst (sep : List Char) : List Char → Option (List Char × List Char)
  | [] => none
  | c :: cs =>
    if listPre sep (c :: cs) then some ([], (c :: cs).drop sep.length)
    else
      match splitFirst sep cs with
      | some (a, b) => some (c :: a, b)
      | none => none

/-- Split a character list on every occurrence of a single character. -/
def splitCharAux (sep : Char) : List Char → List Char → List (List Char)
  | [], cur => [cur.reverse]
  | c :: cs, cur =>
    if c = sep then cur.reverse :: splitCharAux sep cs []
    else splitCharAux sep cs (c :: cur)

/-- Split on one character, starting with an empty accumulator. -/
def splitChar (sep : Char) (l : List Char) : List (List Char) :=
  splitCharAux sep l []

/-- Drop leading space characters. -/
def dropSpaces : List Char → List Char
  | [] => []
  | c :: cs => if c = ' ' then dropSpaces cs else c :: cs

/-- Trim space characters from both ends. -/
def trimChars (l : List Char) : List Char :=
  (dropSpaces (dropSpaces l.reverse).reverse)

/-- Numeric value of a decimal digit character, none for non-digits. -/
def digitVal (c : Char) : Option Nat :=
  if '0' ≤ c ∧ c ≤ '9' then some (c.toNat - 48) else none

/-- Accumulate the decimal value of a digit list. -/
def natOfCharsAux : List Char → Nat → Option Nat
  | [], acc => some acc
  | c :: cs, acc =>
    match digitVal c with
    | some d => natOfCharsAux cs (acc * 10 + d)
    | none => none

/-- Parse a nonempty all-digit character list as a natural number. -/
def natOfChars (l : List Char) : Option Nat :=
  if l = [] then none else natOfCharsAux l 0

/-- Modelled from the spec: month names of the textual date format of the export
(spec section 4.1); the date-parsing code is missing from the sources. -/
def monthNum (s : List Char) : Option Nat :=
  if s = "January".data then some 1
  else if s = "February".data then some 2
  else if s = "March".data then some 3
  else if s = "April".data then some 4
  else if s = "May".data then some 5
  else if s = "June".data then some 6
  else if s = "July".data then some 7
  else if s = "August".data then some 8
  else if s = "September".data then some 9
  else if s = "October".data then some 10
  else if s = "November".data then some 11
  else if s = "December".data then some 12
  else none

/-- Parse an "HH:MM:SS" time field. -/
def parseTimePart (l : List Char) : Option (Nat × Nat × Nat) :=
  match splitChar ':' l with
  | [h, m, s] =>
    match natOfChars h, natOfChars m, natOfChars s with
    | some a, some b, some c => some (a, b, c)
    | _, _, _ => none
  | _ => none

/-- Modelled from the spec: date parsing for the specific
day/month/year/time textual format of the export, for example
"Monday, 1 January 2024 10:00:00 AM"; failure yields none (spec
section 4.1); the date-parsing code is missing from the sources. -/
def parseDate (s : String) : Option DateTimeT :=
  match splitFirst (", ").data s.data with
  | none => none
  | some (_, rest) =>
    match splitChar ' ' (trimChars rest) with
    | [d, mon, y, time, ampm] =>
      match natOfChars d, monthNum mon, natOfChars y, parseTimePart time with
      | some dd, some mm, some yy, some (h, mi, se) =>
        let h24 :=
          if ampm = "PM".data ∧ h ≠ 12 then h + 12
          else if ampm = "AM".data ∧ h = 12 then 0
          else h
        some ⟨dd, mm, yy, h24, mi, se⟩
      | _, _, _, _ => none
    | _ => none

/-- Modelled from the spec: the fixed textual kind markers of the metadata
line ("- Your Highlight", "- Your Note", "- Your Bookmark", spec
section 4.1); the parser code is missing from the sources. -/
def kindMarkerChars : Kind → List Char
  | Kind.Highlight => ("- Your Highlight").data
  | Kind.Note => ("- Your Note").data
  | Kind.Bookmark => ("- Your Bookmark").data

/-- Modelled from the spec: recognise the kind of a metadata line by its
fixed textual marker; unrecognised kinds yield none (spec sections 4.1
and its edge cases); the parser code is missing from the sources. -/
def kindOfMeta (meta : List Char) : Option Kind :=
  if listPre (kindMarkerChars Kind.Highlight) meta then some Kind.Highlight
  else if listPre (kindMarkerChars Kind.Note) meta then some Kind.Note
  else if listPre (kindMarkerChars Kind.Bookmark) meta then some Kind.Bookmark
  else none

/-- Modelled from the spec: split the metadata line into kind, location
descriptor and date substring using the fixed markers, the date substring
being what follows "Added on" (spec section 4.1); the parser code is
missing from the sources. -/
def parseMeta (meta : String) : Option (Kind × String × String) :=
  match kindOfMeta meta.data with
  | none => none
  | some k =>
    let rest := meta.data.drop (kindMarkerChars k).length
    match splitFirst ("Added on").data rest with
    | some (bef, aft) =>
      some (k, String.mk (trimChars bef), String.mk (trimChars aft))
    | none => some (k, String.mk (trimChars rest), "")

/-- Join content lines back with newlines. -/
def joinLines : List String → String
  | [] => ""
  | [s] => s
  | s :: rest => s ++ "\n" ++ joinLines rest

/-- Modelled from the spec: parse one entry block spanning title line,
metadata line, blank line and content lines; malformed blocks yield none,
date-parse failure yields a null added_at but keeps the record (spec
section 4.1); the parser code is missing from the sources. -/
def parseEntry (b : List String) : Option Clipping :=
  match b with
  | title :: meta :: blank :: contentLines =>
    if blank = "" then
      match parseMeta meta with
      | some (k, loc, dateStr) =>
        some ⟨title, k, loc, parseDate dateStr, joinLines contentLines⟩
      | none => none
    else none
  | _ => none

/-- Split a line list into entry blocks at each delimiter line of ten
equals signs, the delimiter of the standard Kindle export. -/
def splitOnDelim : List String → List (List String)
  | [] => [[]]
  | l :: ls =>
    if l = "==========" then [] :: splitOnDelim ls
    else
      match splitOnDelim ls with
      | b :: bs => (l :: b) :: bs
      | [] => [[l]]

/-- Split raw text into lines at newline characters. -/
def splitLinesAux : List Char → List Char → List String
  | [], cur => [String.mk cur.reverse]
  | c :: cs, cur =>
    if c = '\n' then String.mk cur.reverse :: splitLinesAux cs []
    else splitLinesAux cs (c :: cur)

/-- Lines of a raw export text. -/
def splitLines (s : String) : List String :=
  splitLinesAux s.data []

/-- Modelled from the spec: the entry blocks of a raw export text, entries
separated by a fixed delimiter line (spec section 4.1); the parser code is
missing from the sources. -/
def splitBlocks (text : String) : List (List String) :=
  splitOnDelim (splitLines text)

/-- Modelled from the spec: parse every entry block in source order,
skipping malformed blocks while counting a warning for each skipped block
(spec section 4.1); the parser code is missing from the sources. -/
def parseAll : List (List String) → List Clipping × Nat
  | [] => ([], 0)
  | b :: bs =>
    match parseEntry b with
    | some c => (c :: (parseAll bs).1, (parseAll bs).2)
    | none => ((parseAll bs).1, (parseAll bs).2 + 1)

/-- Modelled from the spec: the whole Clippings Parser, from raw text to
parsed records and the skipped-entry warning count (spec section 4.1); the
parser code is missing from the sources. -/
def parseText (text : String) : List Clipping × Nat :=
  parseAll (splitBlocks text)

/-- Modelled from the spec: the duplicate criterion of the Markdown Emitter,
two Clippings are duplicates when they have the same title, the same
location, and the content of one is a substring of the content of the other
(spec section 4.2); the emitter code is missing from the sources. -/
def isDup (a b : Clipping) : Bool :=
  decide (a.title = b.title) && decide (a.location = b.location) &&
    (listSub a.content.data b.content.data ||
      listSub b.content.data a.content.data)

/-- Modelled from the spec: insert one Clipping into an accumulated
duplicate-free list, dropping the new one when an at-least-as-long
duplicate is already present and removing the shorter duplicates otherwise,
so that of each duplicate pair the longer content is kept (spec
section 4.2); the emitter code is missing from the sources. -/
def insertClip (acc : List Clipping) (c : Clipping) : List Clipping :=
  if acc.any (fun e => isDup e c && decide (c.content.length ≤ e.content.length)) then
    acc
  else
    acc.filter (fun e => !(isDup e c && decide (e.content.length < c.content.length)))
      ++ [c]

/-- Modelled from the spec: deduplication of a group of Clippings, keeping
of each duplicate pair the longer content (spec section 4.2); the emitter
code is missing from the sources. -/
def dedup (l : List Clipping) : List Clipping :=
  l.foldl insertClip []

/-- Case-folded code points of a title, the key of the case-insensitive,
locale-independent ordinal comparison. -/
def foldKey (s : String) : List Nat :=
  s.data.map (fun c => if 65 ≤ c.toNat ∧ c.toNat ≤ 90 then c.toNat + 32 else c.toNat)

/-- Lexicographic order on code-point lists. -/
def lexLeNat : List Nat → List Nat → Bool
  | [], _ => true
  | _ :: _, [] => false
  | a :: l, b :: m =>
    if a < b then true else if b < a then false else lexLeNat l m

/-- Modelled from the spec: title comparison of the group ordering,
case-insensitive locale-independent ordinal compare (spec section 4.2); the
emitter code is missing from the sources. -/
def titleLe (a b : String) : Bool :=
  lexLeNat (foldKey a) (foldKey b)

/-- Modelled from the spec: the numeric value of a location when the raw
location string is parseable as a number (spec section 4.2); the emitter
code is missing from the sources. -/
def locNum (c : Clipping) : Option Nat :=
  natOfChars c.location.data

/-- Order on optional numeric locations: parseable locations compare by
value, unparseable ones compare as ties below every number. -/
def optLe : Option Nat → Option Nat → Bool
  | none, _ => true
  | some _, none => false
  | some m, some n => decide (m ≤ n)

/-- Modelled from the spec: within-group comparison of Clippings by numeric
location value when parseable (spec section 4.2); the emitter code is
missing from the sources. -/
def locLe (a b : Clipping) : Bool :=
  optLe (locNum a) (locNum b)

/-- Stable insertion into a sorted list: the new element goes before the
first element that is strictly greater. -/
def insertLe (le : α → α → Bool) (x : α) : List α → List α
  | [] => [x]
  | y :: ys =>
    if le y x && !(le x y) then y :: insertLe le x ys else x :: y :: ys

/-- Stable insertion sort by a boolean comparison. -/
def sortLe (le : α → α → Bool) : List α → List α
  | [] => []
  | x :: xs => insertLe le x (sortLe le xs)

/-- Titles in order of first occurrence. -/
def firstTitles (l : List Clipping) : List String :=
  l.foldl (fun acc c => if c.title ∈ acc then acc else acc ++ [c.title]) []

/-- Modelled from the spec: the Markdown Emitter, grouping Clippings by
title, deduplicating each group, sorting groups by case-insensitive title
and each group by numeric location (spec section 4.2); the emitter code is
missing from the sources. -/
def emit (l : List Clipping) : List Document :=
  (sortLe titleLe (firstTitles l)).map fun t =>
    ⟨t, sortLe locLe (dedup (l.filter fun c => decide (c.title = t)))⟩

/-- Modelled from the spec: render one surviving Clipping as a bullet, notes
rendered distinctly from highlights (spec section 4.2); the emitter code is
missing from the sources. -/
def renderClipping (c : Clipping) : String :=
  match c.kind with
  | Kind.Note => "> Note: " ++ c.content
  | _ => "- " ++ c.content

/-- Modelled from the spec: render one Document as a Markdown section with
its title as heading (spec section 4.2); the emitter code is missing from
the sources. -/
def renderDoc (d : Document) : String :=
  "# " ++ d.title ++ "\n" ++ joinLines (d.clippings.map renderClipping)

/-- Modelled from the spec: render the whole Markdown output in memory
(spec sections 4.2 and 5); the emitter code is missing from the sources. -/
def render (l : List Clipping) : String :=
  joinLines ((emit l).map renderDoc)

/-- Modelled from the spec: the error taxonomy of section 7; the run code is
missing from the sources. -/
inductive KError : Type
  | InputNotFound : KError
  | UnreadableEncoding : KError
  | MalformedEntry : KError
  | EmptyResult : KError
  | OutputWriteFailure : KError
deriving DecidableEq, Repr

/-- Modelled from the spec: the outcome of opening and decoding the input
file (spec sections 6 and 7); the run code is missing from the sources. -/
inductive FileRead : Type
  | notFound : FileRead
  | undecodable : FileRead
  | ok : String → FileRead
deriving DecidableEq, Repr

/-- Modelled from the spec: one full run, reading the input, parsing,
failing with EmptyResult when no valid clipping was found, rendering and
writing, with OutputWriteFailure when the write fails (spec sections 6
and 7); the run code is missing from the sources. -/
def runCore (r : FileRead) (writeOk : Bool) : Except KError String :=
  match r with
  | FileRead.notFound => Except.error KError.InputNotFound
  | FileRead.undecodable => Except.error KError.UnreadableEncoding
  | FileRead.ok text =>
    if (parseText text).1.isEmpty then Except.error KError.EmptyResult
    else if writeOk then Except.ok (render (parseText text).1)
    else Except.error KError.OutputWriteFailure

/-- Modelled from the spec: the process exit code, zero on success and
non-zero on any error (spec section 6); the run code is missing from the
sources. -/
def exitCode (r : Except KError String) : Nat :=
  match r with
  | Except.ok _ => 0
  | Except.error _ => 1

/-- Modelled from the spec: a write event on the output file; the only
event the run can emit is a single flush of a complete document (spec
section 5); the run code is missing from the sources. -/
inductive WriteEvent : Type
  | writeAll : String → WriteEvent
deriving DecidableEq, Repr

/-- Modelled from the spec: the sequence of write events of one run, a
single all-at-once flush on success and none on error (spec section 5);
the run code is missing from the sources. -/
def runTrace (r : FileRead) (w : Bool) : List WriteEvent :=
  match runCore r w with
  | Except.ok doc => [WriteEvent.writeAll doc]
  | Except.error _ => []

/-- Import targets of the fallback chains in the source shims: the
relative import of the klippy submodule, the absolute import of
klippy.klippy, and the absolute import of a top-level klippy module. -/
inductive ImportTarget : Type
  | relKlippy : ImportTarget
  | pkgKlippyKlippy : ImportTarget
  | topKlippy : ImportTarget
deriving DecidableEq, Repr

/-- Submodule files present next to the package initialiser among the three
provided source files. -/
def packageSubmoduleNames : List String := ["__main__", "setup"]

/-- Top-level module names importable from the three provided source files. -/
def topModuleNames : List String := ["setup"]

/-- Whether one import of the fallback chain succeeds against the provided
source files. -/
def importOk : ImportTarget → Bool
  | ImportTarget.relKlippy => packageSubmoduleNames.contains "klippy"
  | ImportTarget.pkgKlippyKlippy => topModuleNames.contains "klippy"
  | ImportTarget.topKlippy => topModuleNames.contains "klippy"

/-- The fallback chain of src/__main__.py: first "from .klippy import main",
then "from klippy.klippy import main", then "from klippy import main". -/
def mainImportChain : List ImportTarget :=
  [ImportTarget.relKlippy, ImportTarget.pkgKlippyKlippy, ImportTarget.topKlippy]

/-- The fallback chain of src/__init__.py: first "from .klippy import main",
then "from klippy import main". -/
def initImportChain : List ImportTarget :=
  [ImportTarget.relKlippy, ImportTarget.topKlippy]

/-- Resolve a fallback import chain: the first import that succeeds wins,
and when every import fails the ImportError of the last attempt
propagates. -/
def resolveChain (chain : List ImportTarget) : Except String ImportTarget :=
  match chain.find? importOk with
  | some t => Except.ok t
  | none => Except.error "ImportError"

/-- Running the package as a script invokes main only when the import chain
of src/__main__.py resolved. -/
def mainModuleRun : Except String Unit :=
  (resolveChain mainImportChain).map fun _ => ()

/-- The version constant exposed by src/__init__.py. -/
def initVersion : String := "0.1.0"

/-- The version declared in the setup call of src/setup.py. -/
def setupVersion : String := "0.1.0"

/-- The short content of the deduplication scenario of the spec. -/
def sampleShort : Clipping := ⟨"T", Kind.Highlight, "10", none, "abc"⟩

/-- The extended content of the deduplication scenario of the spec. -/
def sampleLong : Clipping := ⟨"T", Kind.Highlight, "10", none, "abc def"⟩

/-- A list of Clippings is duplicate-free when no two of its members
satisfy the duplicate criterion of the Emitter. -/
def DupFree (l : List Clipping) : Prop :=
  l.Pairwise fun a b => isDup a b = false

/-- The single Clipping used as the concrete witness input of the
idempotence claim. -/
def sampleNote : Clipping := ⟨"W", Kind.Note, "5", none, "q"⟩

/-- Concrete Clipping with a numeric location, for the ordering witness. -/
def witLocA : Clipping := ⟨"Beta", Kind.Highlight, "10", none, "x"⟩

/-- Concrete Clipping with a numeric location and a title that sorts first
case-insensitively, for the ordering witness. -/
def witLocB : Clipping := ⟨"alpha", Kind.Highlight, "2", none, "y"⟩

/-- Concrete Clipping with a non-numeric location, for the ordering
witness. -/
def witLocC : Clipping := ⟨"Gamma", Kind.Highlight, "loc", none, "z"⟩

/-- A well-formed entry block of the scenario in the spec, used by
witnesses. -/
def goodBlock : List String :=
  ["Title (Author)",
   "- Your Highlight on page 1 | Location 10-12 | Added on Monday, 1 January 2024 10:00:00 AM",
   "",
   "Sample text"]

theorem listPre_iff (l : List Char) : ∀ m, listPre l m = true ↔ ∃ q, m = l ++ q := by
  induction l with
  | nil => intro m; simp [listPre]
  | cons a l ih =>
    intro m
    cases m with
    | nil => simp [listPre]
    | cons b m =>
      simp only [listPre, Bool.and_eq_true, decide_eq_true_eq, ih, List.cons_append,
        List.cons.injEq]
      constructor
      · rintro ⟨rfl, q, rfl⟩; exact ⟨q, rfl, rfl⟩
      · rintro ⟨q, rfl, rfl⟩; exact ⟨rfl, q, rfl⟩

theorem listSub_iff (l : List Char) : ∀ m, listSub l m = true ↔ ∃ p q, m = p ++ l ++ q := by
  intro m
  induction m with
  | nil =>
    simp only [listSub, List.isEmpty_iff]
    constructor
    · rintro rfl; exact ⟨[], [], rfl⟩
    · rintro ⟨p, q, h⟩
      rcases List.append_eq_nil.mp h.symm with ⟨h1, h2⟩
      rcases List.append_eq_nil.mp h1 with ⟨h3, h4⟩
      exact h4
  | cons b m ih =>
    simp only [listSub, Bool.or_eq_true, listPre_iff, ih]
    constructor
    · rintro (⟨q, hq⟩ | ⟨p, q, rfl⟩)
      · exact ⟨[], q, by simpa using hq⟩
      · exact ⟨b :: p, q, rfl⟩
    · rintro ⟨p, q, h⟩
      cases p with
      | nil => left; exact ⟨q, by simpa using h⟩
      | cons x p =>
        simp only [List.cons_append] at h
        injection h with hbx hm
        right
        exact ⟨p, q, hm⟩

theorem isDup_iff (a b : Clipping) :
    isDup a b = true ↔
      a.title = b.title ∧ a.location = b.location ∧
        ((∃ p q, b.content.data = p ++ a.content.data ++ q) ∨
         (∃ p q, a.content.data = p ++ b.content.data ++ q)) := by
  simp [isDup, listSub_iff, and_assoc]

theorem isDup_comm (a b : Clipping) : isDup a b = isDup b a := by
  rw [Bool.eq_iff_iff, isDup_iff, isDup_iff]
  constructor
  · rintro ⟨h1, h2, h3⟩; exact ⟨h1.symm, h2.symm, h3.symm⟩
  · rintro ⟨h1, h2, h3⟩; exact ⟨h1.symm, h2.symm, h3.symm⟩

theorem dedup_pair_keeps_longer (a b : Clipping) (hd : isDup a b = true)
    (hlen : a.content.length < b.content.length) :
    dedup [a, b] = [b] ∧ dedup [b, a] = [b] := by
  have hba : isDup b a = true := by rw [← isDup_comm]; exact hd
  have h1 : (decide (b.content.length ≤ a.content.length)) = false := by
    simp only [decide_eq_false_iff_not]; omega
  have h2 : (decide (a.content.length < b.content.length)) = true := by
    simp only [decide_eq_true_eq]; omega
  have h3 : (decide (a.content.length ≤ b.content.length)) = true := by
    simp only [decide_eq_true_eq]; omega
  constructor
  · simp [dedup, List.foldl, insertClip, hd, h1, h2]
  · simp [dedup, List.foldl, insertClip, hba, h3]

/-- C1: two Clippings are duplicates for the Emitter exactly when they have
the same title, the same location, and the content of one is a contiguous
substring of the content of the other; of each duplicate pair the Clipping
with the longer content is kept; in particular, of two entries with
identical title and location and contents "abc" and "abc def", only
"abc def" survives deduplication. -/
theorem spec_c1_duplicate_criterion :
    (∀ a b : Clipping, isDup a b = true ↔
        a.title = b.title ∧ a.location = b.location ∧
          ((∃ p q, b.content.data = p ++ a.content.data ++ q) ∨
           (∃ p q, a.content.data = p ++ b.content.data ++ q)))
    ∧ (∀ a b : Clipping, isDup a b = true → a.content.length < b.content.length →
        dedup [a, b] = [b] ∧ dedup [b, a] = [b])
    ∧ dedup [sampleShort, sampleLong] = [sampleLong] :=
  ⟨isDup_iff, dedup_pair_keeps_longer,
    (dedup_pair_keeps_longer sampleShort sampleLong (by decide) (by decide)).1⟩

/-- Witness for C1 at the concrete scenario of the spec. -/
theorem spec_c1_witness :
    dedup [sampleShort, sampleLong] = [sampleLong]
    ∧ dedup [sampleLong, sampleShort] = [sampleLong] :=
  spec_c1_duplicate_criterion.2.1 sampleShort sampleLong (by decide) (by decide)

theorem insertClip_dupFree {acc : List Clipping} (c : Clipping) (h : DupFree acc) :
    DupFree (insertClip acc c) := by
  unfold insertClip
  split
  · exact h
  · next hany =>
    rw [DupFree, List.pairwise_append]
    refine ⟨List.Pairwise.sublist (List.filter_sublist _) h, List.pairwise_singleton _ _, ?_⟩
    intro a ha b hb
    rcases List.mem_singleton.mp hb with rfl
    rcases List.mem_filter.mp ha with ⟨hmem, hp⟩
    by_contra hne
    have hdup : isDup a b = true := by
      cases hcase : isDup a b
      · exact absurd hcase hne
      · rfl
    have hlt : a.content.length < b.content.length := by
      by_contra hge
      apply hany
      refine List.any_eq_true.mpr ⟨a, hmem, ?_⟩
      simp only [hdup, Bool.true_and, decide_eq_true_eq]
      omega
    simp only [hdup, Bool.true_and, Bool.not_eq_true', decide_eq_false_iff_not] at hp
    exact hp hlt

theorem foldl_insertClip_dupFree (l : List Clipping) :
    ∀ acc : List Clipping, DupFree acc → DupFree (l.foldl insertClip acc) := by
  induction l with
  | nil => intro acc h; exact h
  | cons c l ih => intro acc h; exact ih _ (insertClip_dupFree c h)

theorem dedup_dupFree (l : List Clipping) : DupFree (dedup l) :=
  foldl_insertClip_dupFree l [] List.Pairwise.nil

theorem insertClip_of_noDup {acc : List Clipping} {c : Clipping}
    (h : ∀ e ∈ acc, isDup e c = false) : insertClip acc c = acc ++ [c] := by
  unfold insertClip
  rw [if_neg, List.filter_eq_self.mpr]
  · intro e he
    simp [h e he]
  · intro hany
    rcases List.any_eq_true.mp hany with ⟨e, he, hp⟩
    simp [h e he] at hp

theorem foldl_insertClip_of_dupFree (l : List Clipping) :
    ∀ acc : List Clipping, DupFree (acc ++ l) → l.foldl insertClip acc = acc ++ l := by
  induction l with
  | nil => intro acc _; simp
  | cons c l ih =>
    intro acc h
    have hc : ∀ e ∈ acc, isDup e c = false := by
      rw [DupFree, List.pairwise_append] at h
      exact fun e he => h.2.2 e he c (List.mem_cons_self c l)
    have h2 : DupFree ((acc ++ [c]) ++ l) := by
      rw [List.append_assoc, List.singleton_append]
      exact h
    rw [List.foldl_cons, insertClip_of_noDup hc, ih _ h2, List.append_assoc,
      List.singleton_append]

theorem dedup_eq_self_of_dupFree {l : List Clipping} (h : DupFree l) : dedup l = l := by
  have h2 := foldl_insertClip_of_dupFree l [] (by simpa using h)
  simpa [dedup] using h2

theorem perm_insertLe (le : α → α → Bool) (x : α) (l : List α) :
    List.Perm (insertLe le x l) (x :: l) := by
  induction l with
  | nil => exact List.Perm.refl _
  | cons y ys ih =>
    unfold insertLe
    split
    · exact ((ih.cons y).trans (List.Perm.swap x y ys))
    · exact List.Perm.refl _

theorem perm_sortLe (le : α → α → Bool) (l : List α) : List.Perm (sortLe le l) l := by
  induction l with
  | nil => exact List.Perm.refl _
  | cons x xs ih => exact (perm_insertLe le x (sortLe le xs)).trans (ih.cons x)

theorem dupFree_symm : Symmetric fun a b : Clipping => isDup a b = false := by
  intro a b h
  rw [isDup_comm]
  exact h

theorem dupFree_of_perm {l m : List Clipping} (p : List.Perm l m) (h : DupFree l) :
    DupFree m :=
  (p.pairwise_iff (fun {_a _b} h2 => dupFree_symm h2)).mp h

/-- C3: deduplication is idempotent, and every Document the Emitter
produces is a fixed point of deduplication. -/
theorem spec_c3_dedup_idempotent :
    (∀ l : List Clipping, dedup (dedup l) = dedup l)
    ∧ (∀ l : List Clipping, ∀ d ∈ emit l, dedup d.clippings = d.clippings) := by
  constructor
  · intro l
    exact dedup_eq_self_of_dupFree (dedup_dupFree l)
  · intro l d hd
    rw [emit] at hd
    obtain ⟨t, ht, rfl⟩ := List.mem_map.mp hd
    exact dedup_eq_self_of_dupFree
      (dupFree_of_perm (perm_sortLe _ _).symm (dedup_dupFree _))

/-- Witness for C3 at a concrete emitted Document. -/
theorem spec_c3_witness :
    dedup (Document.mk "W" [sampleNote]).clippings
      = (Document.mk "W" [sampleNote]).clippings :=
  spec_c3_dedup_idempotent.2 [sampleNote] (Document.mk "W" [sampleNote]) (by decide)

theorem lexLeNat_total (a : List Nat) : ∀ b, lexLeNat a b = true ∨ lexLeNat b a = true := by
  induction a with
  | nil => intro b; left; rfl
  | cons x l ih =>
    intro b
    cases b with
    | nil => right; rfl
    | cons y m =>
      rcases Nat.lt_trichotomy x y with h | h | h
      · left; simp [lexLeNat, h]
      · subst h
        rcases ih m with h2 | h2
        · left; simp [lexLeNat, h2]
        · right; simp [lexLeNat, h2]
      · right; simp [lexLeNat, h]

theorem lexLeNat_trans (a : List Nat) :
    ∀ b c, lexLeNat a b = true → lexLeNat b c = true → lexLeNat a c = true := by
  induction a with
  | nil => intro b c h1 h2; rfl
  | cons x l ih =>
    intro b c h1 h2
    cases b with
    | nil => simp [lexLeNat] at h1
    | cons y m =>
      cases c with
      | nil => simp [lexLeNat] at h2
      | cons z k =>
        by_cases hxy : x < y
        · by_cases hyz : y < z
          · simp [lexLeNat, Nat.lt_trans hxy hyz]
          · by_cases hzy : z < y
            · simp [lexLeNat, hyz, hzy] at h2
            · have hyzeq : y = z := by omega
              subst hyzeq
              simp [lexLeNat, hxy]
        · by_cases hyx : y < x
          · simp [lexLeNat, hxy, hyx] at h1
          · have hxyeq : x = y := by omega
            subst hxyeq
            simp only [lexLeNat, if_neg hxy, if_neg hyx] at h1
            by_cases hxz : x < z
            · simp [lexLeNat, hxz]
            · by_cases hzx : z < x
              · simp [lexLeNat, hxz, hzx] at h2
              · have hxzeq : x = z := by omega
                subst hxzeq
                simp only [lexLeNat, if_neg hxz, if_neg hzx] at h2 ⊢
                exact ih m k h1 h2

theorem titleLe_total (a b : String) : titleLe a b = true ∨ titleLe b a = true :=
  lexLeNat_total (foldKey a) (foldKey b)

theorem titleLe_trans (a b c : String) (h1 : titleLe a b = true) (h2 : titleLe b c = true) :
    titleLe a c = true :=
  lexLeNat_trans (foldKey a) (foldKey b) (foldKey c) h1 h2

theorem optLe_total (a b : Option Nat) : optLe a b = true ∨ optLe b a = true := by
  cases a <;> cases b <;> simp [optLe] <;> omega

theorem optLe_trans (a b c : Option Nat) (h1 : optLe a b = true) (h2 : optLe b c = true) :
    optLe a c = true := by
  cases a <;> cases b <;> cases c <;> simp [optLe] at h1 h2 ⊢ <;> omega

theorem locLe_total (a b : Clipping) : locLe a b = true ∨ locLe b a = true :=
  optLe_total (locNum a) (locNum b)

theorem locLe_trans (a b c : Clipping) (h1 : locLe a b = true) (h2 : locLe b c = true) :
    locLe a c = true :=
  optLe_trans (locNum a) (locNum b) (locNum c) h1 h2

theorem mem_insertLe (le : α → α → Bool) (x : α) (l : List α) (a : α) :
    a ∈ insertLe le x l ↔ a = x ∨ a ∈ l := by
  rw [(perm_insertLe le x l).mem_iff, List.mem_cons]

theorem pairwise_insertLe (le : α → α → Bool)
    (htot : ∀ a b, le a b = true ∨ le b a = true)
    (htrans : ∀ a b c, le a b = true → le b c = true → le a c = true)
    (x : α) (l : List α) (h : l.Pairwise fun a b => le a b = true) :
    (insertLe le x l).Pairwise fun a b => le a b = true := by
  induction l with
  | nil => simp [insertLe]
  | cons y ys ih =>
    rw [List.pairwise_cons] at h
    obtain ⟨hy, hys⟩ := h
    unfold insertLe
    split
    · next hcond =>
      rw [List.pairwise_cons]
      constructor
      · intro a ha
        rcases (mem_insertLe le x ys a).mp ha with rfl | ha
        · exact (Bool.and_eq_true _ _ |>.mp hcond).1
        · exact hy a ha
      · exact ih hys
    · next hcond =>
      have hxy : le x y = true := by
        rcases htot x y with h3 | h3
        · exact h3
        · by_contra hxy2
          have hf : le x y = false := by
            cases hcase : le x y
            · rfl
            · exact absurd hcase hxy2
          apply hcond
          rw [h3, hf]
          rfl
      rw [List.pairwise_cons]
      constructor
      · intro a ha
        rcases List.mem_cons.mp ha with rfl | ha
        · exact hxy
        · exact htrans x y a hxy (hy a ha)
      · exact List.pairwise_cons.mpr ⟨hy, hys⟩

theorem pairwise_sortLe (le : α → α → Bool)
    (htot : ∀ a b, le a b = true ∨ le b a = true)
    (htrans : ∀ a b c, le a b = true → le b c = true → le a c = true)
    (l : List α) :
    (sortLe le l).Pairwise fun a b => le a b = true := by
  induction l with
  | nil => simp [sortLe]
  | cons x xs ih => exact pairwise_insertLe le htot htrans x _ ih

theorem sortLe_eq_self_of_locNone (g : List Clipping) (h : ∀ c ∈ g, locNum c = none) :
    sortLe locLe g = g := by
  induction g with
  | nil => rfl
  | cons x xs ih =>
    have hx : locNum x = none := h x (List.mem_cons_self x xs)
    have hxs : ∀ c ∈ xs, locNum c = none := fun c hc => h c (List.mem_cons_of_mem x hc)
    rw [sortLe, ih hxs]
    cases xs with
    | nil => rfl
    | cons y ys =>
      have hy : locNum y = none := hxs y (List.mem_cons_self y ys)
      unfold insertLe
      rw [if_neg]
      simp [locLe, hx, hy, optLe]

theorem map_title_mk (g : String → List Clipping) (ts : List String) :
    (ts.map fun t => Document.mk t (g t)).map Document.title = ts := by
  induction ts with
  | nil => rfl
  | cons t ts ih => simp [ih]

theorem emit_group_eq (l : List Clipping) (d : Document) (hd : d ∈ emit l) :
    d.clippings = sortLe locLe (dedup (l.filter fun c => decide (c.title = d.title))) := by
  rw [emit] at hd
  obtain ⟨t, ht, rfl⟩ := List.mem_map.mp hd
  rfl

/-- C4: the Emitter orders title groups by case-insensitive ordinal title
comparison; within a group Clippings are ordered by numeric location value
when parseable, and a group none of whose locations is numeric stays in its
original (deduplicated source) order; in particular, when all locations of
an emitted Document are numeric its Clippings appear in non-decreasing
location order. -/
theorem spec_c4_output_ordering (l : List Clipping) :
    ((emit l).map Document.title).Pairwise (fun a b => titleLe a b = true)
    ∧ (∀ d ∈ emit l, (∀ c ∈ d.clippings, (locNum c).isSome = true) →
        d.clippings.Pairwise fun a b => (locNum a).getD 0 ≤ (locNum b).getD 0)
    ∧ (∀ d ∈ emit l, (∀ c ∈ d.clippings, locNum c = none) →
        d.clippings = dedup (l.filter fun c => decide (c.title = d.title))) := by
  refine ⟨?_, ?_, ?_⟩
  · have hmap : (emit l).map Document.title = sortLe titleLe (firstTitles l) := by
      rw [emit]
      exact map_title_mk _ _
    rw [hmap]
    exact pairwise_sortLe titleLe titleLe_total titleLe_trans _
  · intro d hd hsome
    have hcl := emit_group_eq l d hd
    have hpair : d.clippings.Pairwise fun a b => locLe a b = true := by
      rw [hcl]
      exact pairwise_sortLe locLe locLe_total locLe_trans _
    refine hpair.imp_of_mem ?_
    intro a b ha hb hab
    obtain ⟨m, hm⟩ := Option.isSome_iff_exists.mp (hsome a ha)
    obtain ⟨n, hn⟩ := Option.isSome_iff_exists.mp (hsome b hb)
    rw [locLe, hm, hn] at hab
    rw [hm, hn]
    simpa [optLe] using hab
  · intro d hd hnone
    have hcl := emit_group_eq l d hd
    have hmem : ∀ c ∈ dedup (l.filter fun c => decide (c.title = d.title)), locNum c = none := by
      intro c hc
      apply hnone
      rw [hcl]
      exact ((perm_sortLe locLe _).mem_iff).mpr hc
    rw [hcl, sortLe_eq_self_of_locNone _ hmem]

/-- Witness for C4 at concrete inputs with numeric and non-numeric
locations. -/
theorem spec_c4_witness :
    ((emit [witLocA, witLocB]).map Document.title).Pairwise
      (fun a b => titleLe a b = true)
    ∧ (Document.mk "alpha" [witLocB]).clippings.Pairwise
        (fun a b => (locNum a).getD 0 ≤ (locNum b).getD 0)
    ∧ (Document.mk "Gamma" [witLocC]).clippings
        = dedup ([witLocC].filter fun c =>
            decide (c.title = (Document.mk "Gamma" [witLocC]).title)) :=
  ⟨(spec_c4_output_ordering [witLocA, witLocB]).1,
   (spec_c4_output_ordering [witLocA, witLocB]).2.1
     (Document.mk "alpha" [witLocB]) (by decide) (by decide),
   (spec_c4_output_ordering [witLocC]).2.2
     (Document.mk "Gamma" [witLocC]) (by decide) (by decide)⟩

theorem parseAll_length (bs : List (List String)) :
    (parseAll bs).1.length + (parseAll bs).2 = bs.length := by
  induction bs with
  | nil => rfl
  | cons b bs ih =>
    cases h : parseEntry b <;> simp [parseAll, h] <;> omega

/-- C2: for every export text, the number of Clipping records produced by
the parser plus the skipped-entry warning count equals the total number of
entry blocks in the input. -/
theorem spec_c2_parse_count (text : String) :
    (parseText text).1.length + (parseText text).2 = (splitBlocks text).length := by
  simpa [parseText] using parseAll_length (splitBlocks text)

/-- C9: the `main` entry point resolves through the fixed fallback chain of
src/__main__.py — first the relative klippy import, then klippy.klippy,
then top-level klippy — and with only the three provided source files
every import of the chain fails, so importing the package (whose initialiser has
its own two-step chain) or running it as a script raises ImportError and
main is never invoked. -/
theorem spec_c9_import_chain :
    mainImportChain =
      [ImportTarget.relKlippy, ImportTarget.pkgKlippyKlippy, ImportTarget.topKlippy]
    ∧ (∀ t ∈ mainImportChain, importOk t = false)
    ∧ resolveChain mainImportChain = Except.error "ImportError"
    ∧ resolveChain initImportChain = Except.error "ImportError"
    ∧ mainModuleRun ≠ Except.ok () :=
  ⟨rfl, by decide, rfl, rfl, fun h => by
    have h2 : mainModuleRun = Except.error "ImportError" := rfl
    rw [h2] at h
    exact Except.noConfusion h⟩

/-- Witness for C9 at the first element of the fallback chain. -/
theorem spec_c9_witness :
    importOk ImportTarget.relKlippy = false
    ∧ resolveChain mainImportChain = Except.error "ImportError" :=
  ⟨spec_c9_import_chain.2.1 ImportTarget.relKlippy (by decide),
   spec_c9_import_chain.2.2.1⟩

/-- C10: the `__version__` constant of the package initialiser equals the
version declared in the packaging descriptor, both being "0.1.0". -/
theorem spec_c10_version_consistent :
    initVersion = "0.1.0" ∧ setupVersion = "0.1.0" ∧ initVersion = setupVersion :=
  ⟨rfl, rfl, rfl⟩

theorem parseAll_append (xs ys : List (List String)) :
    parseAll (xs ++ ys) =
      ((parseAll xs).1 ++ (parseAll ys).1, (parseAll xs).2 + (parseAll ys).2) := by
  induction xs with
  | nil => simp [parseAll]
  | cons b bs ih =>
    cases h : parseEntry b <;> simp [parseAll, h, ih, Prod.ext_iff] <;> omega

theorem runCore_error_ne_malformed (r : FileRead) (w : Bool) (e : KError)
    (h : runCore r w = Except.error e) : e ≠ KError.MalformedEntry := by
  cases r with
  | notFound =>
    simp only [runCore, Except.error.injEq] at h
    subst h
    decide
  | undecodable =>
    simp only [runCore, Except.error.injEq] at h
    subst h
    decide
  | ok text =>
    simp only [runCore] at h
    split at h
    · simp only [Except.error.injEq] at h
      subst h
      decide
    · split at h
      · exact absurd h (by simp)
      · simp only [Except.error.injEq] at h
        subst h
        decide

/-- C5: a malformed entry block only costs one warning, leaving the records
of the surrounding blocks untouched, so a single corrupted entry never
aborts the run or loses the rest of the file; a run never fails with
MalformedEntry, and every error of the taxonomy that a run does fail with
aborts it with a non-zero exit code. -/
theorem spec_c5_malformed_recovered :
    (∀ xs b ys, parseEntry b = none →
        (parseAll (xs ++ b :: ys)).1 = (parseAll (xs ++ ys)).1
        ∧ (parseAll (xs ++ b :: ys)).2 = (parseAll (xs ++ ys)).2 + 1)
    ∧ (∀ r w, runCore r w ≠ Except.error KError.MalformedEntry)
    ∧ (∀ r w e, runCore r w = Except.error e →
        e ≠ KError.MalformedEntry ∧ exitCode (runCore r w) ≠ 0) := by
  refine ⟨?_, ?_, ?_⟩
  · intro xs b ys hb
    rw [parseAll_append xs (b :: ys), parseAll_append xs ys]
    constructor
    · simp [parseAll, hb]
    · simp [parseAll, hb]
      omega
  · intro r w hr
    exact absurd rfl (runCore_error_ne_malformed r w KError.MalformedEntry hr)
  · intro r w e h
    refine ⟨runCore_error_ne_malformed r w e h, ?_⟩
    rw [h]
    simp [exitCode]

/-- Witness for C5: a garbage block between two good blocks costs exactly
one warning, and concrete runs never fail with MalformedEntry. -/
theorem spec_c5_witness :
    ((parseAll ([goodBlock] ++ ["garbage"] :: [goodBlock])).1
        = (parseAll ([goodBlock] ++ [goodBlock])).1
      ∧ (parseAll ([goodBlock] ++ ["garbage"] :: [goodBlock])).2
        = (parseAll ([goodBlock] ++ [goodBlock])).2 + 1)
    ∧ (KError.InputNotFound ≠ KError.MalformedEntry
        ∧ exitCode (runCore FileRead.notFound true) ≠ 0) :=
  ⟨spec_c5_malformed_recovered.1 [goodBlock] ["garbage"] [goodBlock] (by decide),
   spec_c5_malformed_recovered.2.2 FileRead.notFound true KError.InputNotFound rfl⟩

/-- C6: an empty input file fails with EmptyResult and a non-zero exit; any
input with zero parseable clippings fails with EmptyResult; the exit code
is zero exactly when the run succeeded. -/
theorem spec_c6_empty_result :
    runCore (FileRead.ok "") true = Except.error KError.EmptyResult
    ∧ exitCode (runCore (FileRead.ok "") true) = 1
    ∧ (∀ text w, (parseText text).1 = [] →
        runCore (FileRead.ok text) w = Except.error KError.EmptyResult
        ∧ exitCode (runCore (FileRead.ok text) w) ≠ 0)
    ∧ (∀ r w, exitCode (runCore r w) = 0 ↔ ∃ doc, runCore r w = Except.ok doc) := by
  refine ⟨rfl, rfl, ?_, ?_⟩
  · intro text w h
    have hr : runCore (FileRead.ok text) w = Except.error KError.EmptyResult := by
      simp [runCore, h]
    exact ⟨hr, by rw [hr]; simp [exitCode]⟩
  · intro r w
    cases hr : runCore r w with
    | ok doc => simp [exitCode, hr]
    | error e => simp [exitCode, hr]

/-- Witness for C6 at an input with zero parseable clippings and a failed
run. -/
theorem spec_c6_witness :
    (runCore (FileRead.ok "garbage") true = Except.error KError.EmptyResult
      ∧ exitCode (runCore (FileRead.ok "garbage") true) ≠ 0)
    ∧ (exitCode (runCore FileRead.notFound true) = 0
        ↔ ∃ doc, runCore FileRead.notFound true = Except.ok doc) :=
  ⟨spec_c6_empty_result.2.2.1 "garbage" true (by decide),
   spec_c6_empty_result.2.2.2 FileRead.notFound true⟩

/-- C7: the run renders the whole document in memory and its write trace is
all-or-nothing — on an error no write occurs at all, and otherwise the
trace is a single flush of the complete rendered document; no trace ever
holds more than one write event, so no output is truncated mid-write. -/
theorem spec_c7_all_or_nothing (r : FileRead) (w : Bool) :
    ((∃ e, runCore r w = Except.error e) → runTrace r w = [])
    ∧ (runTrace r w = [] ∨ ∃ text, r = FileRead.ok text
        ∧ runTrace r w = [WriteEvent.writeAll (render (parseText text).1)])
    ∧ (runTrace r w).length ≤ 1 := by
  cases r with
  | notFound => exact ⟨fun _ => rfl, Or.inl rfl, by simp [runTrace, runCore]⟩
  | undecodable => exact ⟨fun _ => rfl, Or.inl rfl, by simp [runTrace, runCore]⟩
  | ok text =>
    by_cases hemp : (parseText text).1.isEmpty = true
    · have hr : runCore (FileRead.ok text) w = Except.error KError.EmptyResult := by
        simp [runCore, hemp]
      have ht : runTrace (FileRead.ok text) w = [] := by
        simp [runTrace, hr]
      exact ⟨fun _ => ht, Or.inl ht, by rw [ht]; simp⟩
    · cases w with
      | false =>
        have hr : runCore (FileRead.ok text) false
            = Except.error KError.OutputWriteFailure := by
          simp [runCore, hemp]
        have ht : runTrace (FileRead.ok text) false = [] := by
          simp [runTrace, hr]
        exact ⟨fun _ => ht, Or.inl ht, by rw [ht]; simp⟩
      | true =>
        have hr : runCore (FileRead.ok text) true
            = Except.ok (render (parseText text).1) := by
          simp [runCore, hemp]
        have ht : runTrace (FileRead.ok text) true
            = [WriteEvent.writeAll (render (parseText text).1)] := by
          simp [runTrace, hr]
        refine ⟨?_, Or.inr ⟨text, rfl, ht⟩, by rw [ht]; simp⟩
        rintro ⟨e, he⟩
        rw [hr] at he
        exact absurd he (by simp)

/-- Witness for C7 at a failed run: no write event at all. -/
theorem spec_c7_witness :
    runTrace FileRead.notFound true = []
    ∧ (runTrace (FileRead.ok "") true).length ≤ 1 :=
  ⟨(spec_c7_all_or_nothing FileRead.notFound true).1 ⟨KError.InputNotFound, rfl⟩,
   (spec_c7_all_or_nothing (FileRead.ok "") true).2.2⟩

/-- C8: an entry whose date substring fails to parse still yields its
Clipping record with a null added_at; a three-line entry with no content
lines is a valid Clipping with empty content (so an empty-content Bookmark
is valid, not an error); an entry with an unrecognised kind is skipped and
counted in the warning count. -/
theorem spec_c8_lenient_fields :
    (∀ title meta cl k loc ds, parseMeta meta = some (k, loc, ds) →
        parseDate ds = none →
        parseEntry (title :: meta :: "" :: cl)
          = some ⟨title, k, loc, none, joinLines cl⟩)
    ∧ (∀ title meta k loc ds, parseMeta meta = some (k, loc, ds) →
        parseEntry [title, meta, ""] = some ⟨title, k, loc, parseDate ds, ""⟩)
    ∧ (∀ title meta rest, kindOfMeta meta.data = none →
        parseEntry (title :: meta :: rest) = none
        ∧ parseAll [title :: meta :: rest] = ([], 1)) := by
  refine ⟨?_, ?_, ?_⟩
  · intro title meta cl k loc ds hm hd
    simp [parseEntry, hm, hd]
  · intro title meta k loc ds hm
    simp [parseEntry, hm, joinLines]
  · intro title meta rest hk
    have hpm : parseMeta meta = none := by
      rw [parseMeta, hk]
    have hpe : parseEntry (title :: meta :: rest) = none := by
      cases rest with
      | nil => rfl
      | cons b cl =>
        by_cases hb : b = ""
        · subst hb
          simp [parseEntry, hpm]
        · simp [parseEntry, hb]
    exact ⟨hpe, by simp [parseAll, hpe]⟩

/-- Witness for C8 at a Bookmark entry with an unparseable date and at a
garbage metadata line. -/
theorem spec_c8_witness :
    (parseEntry ["T", "- Your Bookmark on page 3 | Added on notadate", "", "c"]
        = some ⟨"T", Kind.Bookmark, "on page 3 |", none, "c"⟩)
    ∧ (parseEntry ["T", "- Your Bookmark on page 3 | Added on notadate", ""]
        = some ⟨"T", Kind.Bookmark, "on page 3 |",
            parseDate "notadate", ""⟩)
    ∧ (parseEntry ["T", "garbage", "", "c"] = none
        ∧ parseAll [["T", "garbage", "", "c"]] = ([], 1)) :=
  ⟨spec_c8_lenient_fields.1 "T" "- Your Bookmark on page 3 | Added on notadate"
      ["c"] Kind.Bookmark "on page 3 |" "notadate" (by decide) (by decide),
   spec_c8_lenient_fields.2.1 "T" "- Your Bookmark on page 3 | Added on notadate"
      Kind.Bookmark "on page 3 |" "notadate" (by decide),
   spec_c8_lenient_fields.2.2 "T" "garbage" ["", "c"] (by decide)⟩

end Klippy
